import Mathlib

/-!
# Verification of the bigram analysis engine (`src/src/bigram_analyzer.py`)

This file gives a shallow embedding of the `BigramAnalyzer` class and of the
NLTK library functions it calls (`nltk.bigrams`, `BigramCollocationFinder`,
`BigramAssocMeasures`, `collections.Counter`, `numpy.mean`/`numpy.std`), and
proves or refutes the specification claims about it.

Modelling conventions:
* Python strings are `String`; tokens and sentences are strings.
* `collections.Counter` (an insertion-ordered dict) is an association list
  `List (Bigram × ℕ)`: incrementing an existing key updates it in place,
  a new key is appended at the end (Python dict insertion order).
* Machine floats are modelled exactly: measure scores that are rational
  (`raw_freq`, `chi_sq`) live in `ℚ`; those involving `log`/`sqrt`
  (`pmi`, `student_t`, `likelihood_ratio`) live in `ℝ`; every measure is
  `Option`-valued, `none` modelling a raised exception.  `numpy.mean` /
  `numpy.std` of an empty list return NaN (with a runtime warning): NaN is
  modelled as `none` in an `Option`-valued result.
* Python exceptions are modelled explicitly: a measure computation that
  raises (`ZeroDivisionError` on an exact zero denominator, `ValueError` from
  `math.log` on a non-positive argument) yields `none`, and the raise
  propagates to the calling method; the `ValueError` that
  `calculate_bigram_scores` raises itself is an `Except.error`.
* Methods of the class are state-passing functions `Analyzer → args → result × Analyzer`;
  a method whose Python body never assigns to `self` returns its state unchanged.
-/

abbrev Token := String

abbrev Bigram := Token × Token

/-- Embeds `nltk.bigrams(tokens)`: the list of adjacent pairs
`(tokens[i], tokens[i+1])`, empty when `tokens` has fewer than two elements. -/
def bigramsOf (tokens : List Token) : List Bigram :=
  tokens.zip tokens.tail

/-- Embeds `Counter` lookup, `c[k]` (missing keys count 0, as in `collections.Counter`). -/
def counterGet : List (Bigram × ℕ) → Bigram → ℕ
  | [], _ => 0
  | e :: rest, k => if e.1 = k then e.2 else counterGet rest k

/-- One `Counter` increment `c[k] += 1`: the first entry with key `k` is
updated in place; a missing key is appended at the end (dict insertion order). -/
def counterIncr : List (Bigram × ℕ) → Bigram → List (Bigram × ℕ)
  | [], k => [(k, 1)]
  | e :: rest, k => if e.1 = k then (e.1, e.2 + 1) :: rest else e :: counterIncr rest k

/-- Embeds `Counter.update(ks)`: add one count per element of `ks`, in order. -/
def counterUpdate (c : List (Bigram × ℕ)) (ks : List Bigram) : List (Bigram × ℕ) :=
  ks.foldl counterIncr c

/-- The mutable state of a `BigramAnalyzer` instance: the cumulative bigram
log `self.bigrams` and the cumulative frequency table `self.bigram_freq`.
(`self.bigram_measures` is a stateless table of scoring functions and needs
no field.) -/
structure Analyzer where
  bigrams : List Bigram
  bigram_freq : List (Bigram × ℕ)
deriving Repr, DecidableEq

/-- Embeds `BigramAnalyzer.__init__`: fresh empty log and table. -/
def Analyzer.init : Analyzer :=
  { bigrams := [], bigram_freq := [] }

/-- Embeds `BigramAnalyzer.extract_bigrams(tokens)`: computes `list(nltk.bigrams(tokens))`,
extends `self.bigrams`, updates `self.bigram_freq`, and returns the bigram list. -/
def extract_bigrams (s : Analyzer) (tokens : List Token) : List Bigram × Analyzer :=
  let bs := bigramsOf tokens
  (bs, { bigrams := s.bigrams ++ bs, bigram_freq := counterUpdate s.bigram_freq bs })

/-- Embeds `Counter.most_common(n)`: entries stably sorted by count descending,
truncated to `n` (`heapq.nlargest` is documented to agree with
`sorted(..., reverse=True)[:n]`, which is a stable sort). -/
def most_common (c : List (Bigram × ℕ)) (n : ℕ) : List (Bigram × ℕ) :=
  (List.insertionSort (fun a b : Bigram × ℕ => b.2 ≤ a.2) c).take n

/-- Embeds `BigramAnalyzer.get_top_bigrams(n)`: `self.bigram_freq.most_common(n)`. -/
def get_top_bigrams (s : Analyzer) (n : ℕ) : List (Bigram × ℕ) × Analyzer :=
  (most_common s.bigram_freq n, s)

-- Basic lemmas about the Counter model.

theorem counterGet_counterIncr (c : List (Bigram × ℕ)) (k' k : Bigram) :
    counterGet (counterIncr c k') k =
      counterGet c k + (if k' = k then 1 else 0) := by
  induction c with
  | nil =>
    by_cases h : k' = k <;> simp [counterIncr, counterGet, h]
  | cons e rest ih =>
    by_cases he : e.1 = k'
    · by_cases hk : e.1 = k
      · have h1 : k' = k := by rw [← he, hk]
        simp [counterIncr, counterGet, he, hk, h1]
      · have h1 : ¬ k' = k := by
          intro h; exact hk (h ▸ he)
        simp [counterIncr, counterGet, he, hk, h1]
    · by_cases hk : e.1 = k
      · have h1 : ¬ k' = k := by
          intro h; exact he (by rw [hk, h])
        have h2 : ¬ k = k' := fun h => h1 h.symm
        simp [counterIncr, counterGet, he, hk, h1, h2]
      · simp [counterIncr, counterGet, he, hk, ih]

theorem counterGet_counterUpdate (c : List (Bigram × ℕ)) (ks : List Bigram) (k : Bigram) :
    counterGet (counterUpdate c ks) k = counterGet c k + ks.count k := by
  induction ks generalizing c with
  | nil => simp [counterUpdate]
  | cons b rest ih =>
    have h1 : counterUpdate c (b :: rest) = counterUpdate (counterIncr c b) rest := rfl
    rw [h1, ih, counterGet_counterIncr, List.count_cons]
    by_cases h : b = k
    · simp [h]; omega
    · simp [h]

/-! ## NLTK collocation finder and association measures

`BigramCollocationFinder.from_words(tokens)` (window size 2) builds a
`FreqDist` of words (`word_fd`, here a count function), a `FreqDist` of
adjacent pairs (`ngram_fd`, an insertion-ordered Counter), and records
`N = word_fd.N()`, the number of tokens. -/

structure Finder where
  word_fd : Token → ℕ
  ngram_fd : List (Bigram × ℕ)
  N : ℕ

/-- Embeds `BigramCollocationFinder.from_words(tokens)`. -/
def Finder.from_words (tokens : List Token) : Finder :=
  { word_fd := fun w => tokens.count w
    ngram_fd := counterUpdate [] (bigramsOf tokens)
    N := tokens.length }

/-- Embeds `finder.apply_freq_filter(min_freq)`: drop ngrams whose count is below
`min_freq` (the word counts and `N` are unchanged). -/
def Finder.apply_freq_filter (f : Finder) (min_freq : ℕ) : Finder :=
  { f with ngram_fd := f.ngram_fd.filter (fun e => min_freq ≤ e.2) }

/-- The constant `_SMALL = 1e-20` from `nltk.metrics.association`, modelled
as the exact rational `10 ^ (-20)`. -/
def nltkSmall : ℚ := 1 / 10 ^ 20

/-!
Error model of the measures.  The NLTK measure functions compute with Python
ints and floats and can RAISE: `/` raises `ZeroDivisionError` on an exactly
zero denominator, and `math.log` raises `ValueError` (math domain error) on a
non-positive argument.  Such an exception propagates out of `score_ngrams`
and aborts the calling method.  Each measure is therefore embedded as a total
value function `...Val` together with an `Option`-valued wrapper `...Score`
that returns `none` exactly when the Python computation raises (which of the
two exception kinds is raised is not tracked).  All raise conditions are
exact equalities/sign tests on rational (or natural) quantities, so they are
decidable.
-/

/-- Value of `BigramAssocMeasures.raw_freq(n_ii, (n_ix, n_xi), n_xx)
= n_ii / n_xx` (exact rational value of the float division). -/
def rawFreqVal (n_ii : ℕ) (_m : ℕ × ℕ) (n_xx : ℕ) : ℚ :=
  (n_ii : ℚ) / n_xx

/-- Embeds `raw_freq`: the division raises `ZeroDivisionError` iff
`n_xx = 0`. -/
def rawFreqScore (n_ii : ℕ) (m : ℕ × ℕ) (n_xx : ℕ) : Option ℚ :=
  if n_xx = 0 then none else some (rawFreqVal n_ii m n_xx)

/-- Denominator of `phi_sq` over the 2×2 contingency table
`(n_ii, n_oi, n_io, n_oo)` with `n_oi = n_xi - n_ii`, `n_io = n_ix - n_ii`,
`n_oo = n_xx - n_ii - n_oi - n_io`:
`(n_ii + n_io) * (n_ii + n_oi) * (n_io + n_oo) * (n_oi + n_oo)`. -/
def chiSqDen (n_ii : ℕ) (m : ℕ × ℕ) (n_xx : ℕ) : ℚ :=
  let i : ℚ := n_ii
  let oi : ℚ := (m.2 : ℚ) - i
  let io : ℚ := (m.1 : ℚ) - i
  let oo : ℚ := (n_xx : ℚ) - i - oi - io
  (i + io) * (i + oi) * (io + oo) * (oi + oo)

/-- Value of `BigramAssocMeasures.chi_sq = n_xx * phi_sq`; the value is
rational, so it is computed exactly in `ℚ`. -/
def chiSqVal (n_ii : ℕ) (m : ℕ × ℕ) (n_xx : ℕ) : ℚ :=
  let i : ℚ := n_ii
  let oi : ℚ := (m.2 : ℚ) - i
  let io : ℚ := (m.1 : ℚ) - i
  let oo : ℚ := (n_xx : ℚ) - i - oi - io
  (n_xx : ℚ) * ((i * oo - io * oi) ^ 2 / chiSqDen n_ii m n_xx)

/-- Embeds `chi_sq`: `phi_sq` raises `ZeroDivisionError` iff its denominator
is exactly zero (e.g. when one word type fills the whole corpus, as for
tokens `["a", "a"]`). -/
def chiSqScore (n_ii : ℕ) (m : ℕ × ℕ) (n_xx : ℕ) : Option ℚ :=
  if chiSqDen n_ii m n_xx = 0 then none else some (chiSqVal n_ii m n_xx)

/-- The measure `chi_sq` viewed in `ℝ` (for the string-dispatched scorer,
whose four measures must share one score type). -/
noncomputable def chiSqScoreR (n_ii : ℕ) (m : ℕ × ℕ) (n_xx : ℕ) : Option ℝ :=
  (chiSqScore n_ii m n_xx).map (fun q => (q : ℝ))

/-- Value of `NgramAssocMeasures.pmi` with `_n = 2`:
`log2(n_ii * n_xx) - log2(n_ix * n_xi)`. -/
noncomputable def pmiVal (n_ii : ℕ) (m : ℕ × ℕ) (n_xx : ℕ) : ℝ :=
  Real.logb 2 (n_ii * n_xx) - Real.logb 2 (m.1 * m.2)

/-- Embeds `pmi`: `math.log` raises `ValueError` iff an argument is not
positive, i.e. iff one of the two products of counts is zero. -/
noncomputable def pmiScore (n_ii : ℕ) (m : ℕ × ℕ) (n_xx : ℕ) : Option ℝ :=
  if n_ii * n_xx = 0 ∨ m.1 * m.2 = 0 then none else some (pmiVal n_ii m n_xx)

/-- Value of `NgramAssocMeasures.student_t` with `_n = 2`:
`(n_ii - n_ix * n_xi / n_xx) / sqrt(n_ii + _SMALL)`. -/
noncomputable def studentTVal (n_ii : ℕ) (m : ℕ × ℕ) (n_xx : ℕ) : ℝ :=
  ((n_ii : ℝ) - (m.1 : ℝ) * (m.2 : ℝ) / (n_xx : ℝ)) /
    Real.sqrt ((n_ii : ℝ) + (nltkSmall : ℝ))

/-- Embeds `student_t`: the only raise is the `ZeroDivisionError` of
`.. / n_xx` when `n_xx = 0` (the square-root argument `n_ii + _SMALL` is
always positive). -/
noncomputable def studentTScore (n_ii : ℕ) (m : ℕ × ℕ) (n_xx : ℕ) : Option ℝ :=
  if n_xx = 0 then none else some (studentTVal n_ii m n_xx)

/-- The four `(obs, exp)` pairs of the `likelihood_ratio` computation: the
contingency cells `(n_ii, n_oi, n_io, n_oo)` zipped with
`_expected_values`, `exp_i = (c_i + c_(i xor 1)) * (c_i + c_(i xor 2)) / t`
where `t` is the cell sum.  Computed exactly in `ℚ`. -/
def lrData (n_ii : ℕ) (m : ℕ × ℕ) (n_xx : ℕ) : List (ℚ × ℚ) :=
  let c0 : ℚ := n_ii
  let c1 : ℚ := (m.2 : ℚ) - c0
  let c2 : ℚ := (m.1 : ℚ) - c0
  let c3 : ℚ := (n_xx : ℚ) - c0 - c1 - c2
  let t : ℚ := c0 + c1 + c2 + c3
  [(c0, (c0 + c1) * (c0 + c2) / t), (c1, (c1 + c0) * (c1 + c3) / t),
   (c2, (c2 + c3) * (c2 + c0) / t), (c3, (c3 + c2) * (c3 + c1) / t)]

/-- Sum of the contingency cells (the divisor of `_expected_values`). -/
def lrCellSum (n_ii : ℕ) (m : ℕ × ℕ) (n_xx : ℕ) : ℚ :=
  let c0 : ℚ := n_ii
  let c1 : ℚ := (m.2 : ℚ) - c0
  let c2 : ℚ := (m.1 : ℚ) - c0
  c0 + c1 + c2 + ((n_xx : ℚ) - c0 - c1 - c2)

/-- The `likelihood_ratio` computation raises nowhere iff: the cell sum (the
divisor of `_expected_values`) is nonzero, no `exp + _SMALL` is exactly zero
(else `ZeroDivisionError`), and every `obs / (exp + _SMALL) + _SMALL` is
positive (else `math.log` raises `ValueError`, e.g. on the negative `n_oo`
cell for tokens `["a", "a", "a", "b", "a", "a", "a"]`). -/
def likelihoodDefined (n_ii : ℕ) (m : ℕ × ℕ) (n_xx : ℕ) : Prop :=
  lrCellSum n_ii m n_xx ≠ 0 ∧
    ∀ p ∈ lrData n_ii m n_xx,
      p.2 + nltkSmall ≠ 0 ∧ 0 < p.1 / (p.2 + nltkSmall) + nltkSmall

instance (n_ii : ℕ) (m : ℕ × ℕ) (n_xx : ℕ) :
    Decidable (likelihoodDefined n_ii m n_xx) := by
  unfold likelihoodDefined; infer_instance

/-- Value of the G² measure `likelihood_ratio` of `BigramAssocMeasures`:
`2 * Σ obs * ln(obs / (exp + _SMALL) + _SMALL)` over the four cells. -/
noncomputable def likelihoodVal (n_ii : ℕ) (m : ℕ × ℕ) (n_xx : ℕ) : ℝ :=
  2 * ((lrData n_ii m n_xx).map (fun p =>
    (p.1 : ℝ) * Real.log ((p.1 / (p.2 + nltkSmall) + nltkSmall : ℚ) : ℝ))).sum

/-- Embeds `likelihood_ratio`, raising (`none`) outside
`likelihoodDefined`. -/
noncomputable def likelihoodScore (n_ii : ℕ) (m : ℕ × ℕ) (n_xx : ℕ) : Option ℝ :=
  if likelihoodDefined n_ii m n_xx then some (likelihoodVal n_ii m n_xx)
  else none

/-! ## Sorting of scored ngrams

`AbstractCollocationFinder.score_ngrams` returns
`sorted(self._score_ngrams(fn), key=lambda t: (-t[1], t[0]))`: descending by
score, ties broken by ascending Python tuple (lexicographic) order on the
ngram itself.  With this total antisymmetric key, any correct sort yields the
same list, so the model uses `List.insertionSort`. -/

/-- Python tuple order on a bigram: `(a1, a2) <= (b1, b2)` iff `a1 < b1` or
(`a1 = b1` and `a2 <= b2`), strings compared lexicographically. -/
def bigLe (a b : Bigram) : Prop :=
  a.1 < b.1 ∨ (a.1 = b.1 ∧ a.2 ≤ b.2)

instance : DecidableRel bigLe := fun a b => by
  unfold bigLe; infer_instance

/-- The sort key of `score_ngrams`, as a relation on scored pairs:
`a` comes before `b` iff the score of `a` is larger, or the scores are
equal and the bigram of `a` is tuple-`≤` the bigram of `b`. -/
def keyLe {β : Type} [LinearOrder β] (a b : Bigram × β) : Prop :=
  b.2 < a.2 ∨ (a.2 = b.2 ∧ bigLe a.1 b.1)

instance {β : Type} [LinearOrder β] : DecidableRel (keyLe (β := β)) := fun a b => by
  unfold keyLe; infer_instance

instance : IsTotal Bigram bigLe where
  total a b := by
    rcases lt_trichotomy a.1 b.1 with h | h | h
    · exact Or.inl (Or.inl h)
    · rcases le_total a.2 b.2 with h2 | h2
      · exact Or.inl (Or.inr ⟨h, h2⟩)
      · exact Or.inr (Or.inr ⟨h.symm, h2⟩)
    · exact Or.inr (Or.inl h)

instance : IsTrans Bigram bigLe where
  trans a b c hab hbc := by
    rcases hab with h1 | ⟨h1, h1'⟩ <;> rcases hbc with h2 | ⟨h2, h2'⟩
    · exact Or.inl (lt_trans h1 h2)
    · exact Or.inl (h2 ▸ h1)
    · exact Or.inl (h1 ▸ h2)
    · exact Or.inr ⟨h1.trans h2, le_trans h1' h2'⟩

instance : IsAntisymm Bigram bigLe where
  antisymm a b hab hba := by
    rcases hab with h1 | ⟨h1, h1'⟩ <;> rcases hba with h2 | ⟨h2, h2'⟩
    · exact absurd h2 (lt_asymm h1)
    · exact absurd h1 (h2 ▸ lt_irrefl _)
    · exact absurd h2 (h1 ▸ lt_irrefl _)
    · exact Prod.ext h1 (le_antisymm h1' h2')

instance {β : Type} [LinearOrder β] : IsTotal (Bigram × β) (keyLe (β := β)) where
  total a b := by
    rcases lt_trichotomy a.2 b.2 with h | h | h
    · exact Or.inr (Or.inl h)
    · rcases IsTotal.total (r := bigLe) a.1 b.1 with h2 | h2
      · exact Or.inl (Or.inr ⟨h, h2⟩)
      · exact Or.inr (Or.inr ⟨h.symm, h2⟩)
    · exact Or.inl (Or.inl h)

instance {β : Type} [LinearOrder β] : IsTrans (Bigram × β) (keyLe (β := β)) where
  trans a b c hab hbc := by
    rcases hab with h1 | ⟨h1, h1'⟩ <;> rcases hbc with h2 | ⟨h2, h2'⟩
    · exact Or.inl (lt_trans h2 h1)
    · exact Or.inl (h2 ▸ h1)
    · exact Or.inl (h1.symm ▸ h2)
    · exact Or.inr ⟨h1.trans h2, Trans.trans h1' h2'⟩

instance {β : Type} [LinearOrder β] : IsAntisymm (Bigram × β) (keyLe (β := β)) where
  antisymm a b hab hba := by
    rcases hab with h1 | ⟨h1, h1'⟩ <;> rcases hba with h2 | ⟨h2, h2'⟩
    · exact absurd h2 (lt_asymm h1)
    · exact absurd h1 (h2 ▸ lt_irrefl _)
    · exact absurd h2 (h1 ▸ lt_irrefl _)
    · exact Prod.ext (antisymm h1' h2') h1

/-- Scoring pass of `score_ngrams`: each surviving entry is scored with the
measure; `none` (a raised exception) from any entry aborts the whole pass, as
the exception propagates out of the `sorted(...)` generator. -/
def scoreEntries {β : Type} (f : Finder) (fn : ℕ → ℕ × ℕ → ℕ → Option β) :
    List (Bigram × ℕ) → Option (List (Bigram × β))
  | [] => some []
  | e :: rest =>
    match fn e.2 (f.word_fd e.1.1, f.word_fd e.1.2) f.N, scoreEntries f fn rest with
    | some v, some l => some ((e.1, v) :: l)
    | _, _ => none

/-- Embeds `finder.score_ngrams(score_fn)`: score every ngram of `ngram_fd`
with a positive count (`score_ngram` returns `None` for a zero joint count,
which is skipped), then sort by `(-score, ngram)`; an exception from the
measure aborts the call (`none`). -/
def score_ngrams {β : Type} [LinearOrder β]
    (f : Finder) (fn : ℕ → ℕ × ℕ → ℕ → Option β) : Option (List (Bigram × β)) :=
  (scoreEntries f fn (f.ngram_fd.filter (fun e => 0 < e.2))).map
    (List.insertionSort keyLe)

/-- Embeds `finder.nbest(score_fn, n)`: the ngrams of the top `n` scored
pairs; raises whenever `score_ngrams` raises. -/
def nbest {β : Type} [LinearOrder β]
    (f : Finder) (fn : ℕ → ℕ × ℕ → ℕ → Option β) (n : ℕ) : Option (List Bigram) :=
  (score_ngrams f fn).map (fun scored => (scored.take n).map (fun p => p.1))

/-- The result dictionary of `find_collocations`; field `xBest` holds the
list stored under dict key `x` (`pmi`, `chi_square`, `likelihood_ratio`,
`student_t`, `raw_freq`). -/
structure CollocationResults where
  pmiBest : List Bigram
  chiSquareBest : List Bigram
  likelihoodBest : List Bigram
  studentTBest : List Bigram
  rawFreqBest : List Bigram

/-- Embeds `BigramAnalyzer.find_collocations(tokens, n, min_freq)`: build a
finder from `tokens`, apply the frequency filter, and take `nbest` under each
of the five measures, in the evaluation order of the dict literal (`pmi`,
`chi_square`, `likelihood_ratio`, `student_t`, `raw_freq`); the first raised
exception aborts the method (`none`).  Reads nothing from `self` except the
stateless measure table. -/
noncomputable def find_collocations (s : Analyzer) (tokens : List Token)
    (n : ℕ) (min_freq : ℕ) : Option CollocationResults × Analyzer :=
  let bf := (Finder.from_words tokens).apply_freq_filter min_freq
  ((nbest bf pmiScore n).bind (fun p =>
    (nbest bf chiSqScore n).bind (fun c =>
      (nbest bf likelihoodScore n).bind (fun l =>
        (nbest bf studentTScore n).bind (fun t =>
          (nbest bf rawFreqScore n).map (fun r =>
            { pmiBest := p, chiSquareBest := c, likelihoodBest := l,
              studentTBest := t, rawFreqBest := r }))))), s)

/-- The keys of the `measure_funcs` dict in `calculate_bigram_scores`
(note: `raw_freq` is absent). -/
def supportedMeasures : List String :=
  ["pmi", "chi_square", "likelihood_ratio", "student_t"]

/-- A Python exception escaping the analyzer methods. -/
inductive PyExn where
  /-- Models `raise ValueError(msg)`, the only exception the repository code
  raises itself (`calculate_bigram_scores` on an unknown measure name). -/
  | valueError (msg : String)
  /-- Models an arithmetic exception escaping an NLTK measure computation:
  `ZeroDivisionError` on an exact zero denominator, or the math domain
  `ValueError` of `math.log`; which of the two is raised is not tracked. -/
  | arithmeticError
deriving Repr, DecidableEq

/-- Lifts a measure-pipeline result into the method result: a raised
arithmetic exception propagates to the caller. -/
def toExcept {α : Type} : Option α → Except PyExn α
  | some v => Except.ok v
  | none => Except.error PyExn.arithmeticError

/-- Embeds `BigramAnalyzer.calculate_bigram_scores(tokens, measure)`: build
an unfiltered finder from `tokens`; dispatch on the measure name through
`measure_funcs`, raising `ValueError(f"Unknown measure: ...")` for a name
outside the dict; return `score_ngrams` of the chosen measure (whose own
exceptions propagate). -/
noncomputable def calculate_bigram_scores (s : Analyzer) (tokens : List Token)
    (measure : String) : Except PyExn (List (Bigram × ℝ)) × Analyzer :=
  let bf := Finder.from_words tokens
  if measure = "pmi" then (toExcept (score_ngrams bf pmiScore), s)
  else if measure = "chi_square" then (toExcept (score_ngrams bf chiSqScoreR), s)
  else if measure = "likelihood_ratio" then
    (toExcept (score_ngrams bf likelihoodScore), s)
  else if measure = "student_t" then (toExcept (score_ngrams bf studentTScore), s)
  else (Except.error (PyExn.valueError ("Unknown measure: " ++ measure)), s)

/-- The message of an explicitly raised `ValueError`, when the result is one
(`none` on success and on arithmetic exceptions). -/
def exceptError {α : Type} : Except PyExn α → Option String
  | Except.error (PyExn.valueError msg) => some msg
  | Except.error PyExn.arithmeticError => none
  | Except.ok _ => none

/-! ## Context locator, statistics, export -/

/-- The context dict of `analyze_bigram_context`. -/
structure ContextRecord where
  occurrences : ℕ
  sentences : List String
  positions : List ℕ
deriving Repr, DecidableEq

/-- Python `needle.lower() in hay.lower()`: case-insensitive substring test
(contiguous-sublist containment on the character lists). -/
def containsCI (hay needle : String) : Bool :=
  decide (needle.toLower.data <:+: hay.toLower.data)

/-- Embeds `BigramAnalyzer.analyze_bigram_context(text, target_bigram)`.  The call
`nltk.sent_tokenize(text)` is external sentence splitting; its output — the
ordered sentence list — is taken here as the input, exactly as §4.3 of the
spec presents the operation.  For each sentence, in order and 0-indexed, a
case-insensitive substring test for `word1 + " " + word2` is made; on a match
the occurrence count is incremented once and the original sentence and its
index are appended.  `contextStep` is the loop body, `analyze_bigram_context`
the whole method. -/
def contextStep (bigram_str : String) (ctx : ContextRecord) (p : ℕ × String) :
    ContextRecord :=
  if containsCI p.2 bigram_str then
    { occurrences := ctx.occurrences + 1
      sentences := ctx.sentences ++ [p.2]
      positions := ctx.positions ++ [p.1] }
  else ctx

def analyze_bigram_context (s : Analyzer) (sentences : List String)
    (target : Bigram) : ContextRecord × Analyzer :=
  let bigram_str := target.1 ++ " " ++ target.2
  (sentences.enum.foldl (contextStep bigram_str)
    { occurrences := 0, sentences := [], positions := [] }, s)

/-- Embeds `numpy.mean` of a list of counts: the exact rational mean, or NaN
(modelled `none`, emitted with a runtime warning) for an empty list. -/
def npMean (l : List ℕ) : Option ℚ :=
  if l.isEmpty then none else some ((l.sum : ℚ) / l.length)

/-- The real mean used inside `npStd`. -/
noncomputable def meanR (l : List ℕ) : ℝ :=
  ((l.sum : ℝ) / l.length)

/-- Embeds `numpy.std` (population standard deviation
`sqrt(mean((x - mean)^2))`), or NaN (`none`) for an empty list. -/
noncomputable def npStd (l : List ℕ) : Option ℝ :=
  if l.isEmpty then none
  else some (Real.sqrt ((l.map (fun x => ((x : ℝ) - meanR l) ^ 2)).sum / l.length))

/-- The statistics dict of `generate_bigram_statistics`.  `avg_frequency` and
`std_frequency` are `Option`-valued because `numpy` yields NaN on empty input. -/
structure BigramStats where
  total_bigrams : ℕ
  unique_bigrams : ℕ
  avg_frequency : Option ℚ
  std_frequency : Option ℝ
  max_frequency : ℕ
  min_frequency : ℕ
  coverage : ℚ

/-- Embeds `BigramAnalyzer.generate_bigram_statistics(tokens)`: recomputes
`bigrams = list(nltk.bigrams(tokens))` and `bigram_freq = Counter(bigrams)`
from the argument (not from `self`), then assembles the statistics dict;
`max`/`min`/`coverage` are guarded against the empty case, `np.mean`/`np.std`
are not. -/
noncomputable def generate_bigram_statistics (s : Analyzer) (tokens : List Token) :
    BigramStats × Analyzer :=
  let bs := bigramsOf tokens
  let bf := counterUpdate [] bs
  let vals := bf.map (fun e => e.2)
  ({ total_bigrams := bs.length
     unique_bigrams := bf.length
     avg_frequency := npMean vals
     std_frequency := npStd vals
     max_frequency := if bf.isEmpty then 0 else vals.max?.getD 0
     min_frequency := if bf.isEmpty then 0 else vals.min?.getD 0
     coverage := if bs.isEmpty then 0 else (bf.length : ℚ) / bs.length }, s)

/-- One CSV row of `export_results` (the `to_csv` I/O is outside the model). -/
structure ExportRecord where
  bigram : String
  word1 : Token
  word2 : Token
  frequency : ℕ
  pmi_score : ℝ
  chi_square_score : ℝ

/-- Builds the record for one entry `p` of the PMI ranking, given the
chi-square ranking `scores_chi` and the cumulative table `freq_table`: the
chi-square score is looked up by bigram (`next(..., 0)` — 0 when absent) and
the frequency is `self.bigram_freq.get(bigram, 0)`. -/
noncomputable def exportRecord (freq_table : List (Bigram × ℕ))
    (scores_chi : List (Bigram × ℝ)) (p : Bigram × ℝ) : ExportRecord :=
  { bigram := p.1.1 ++ " " ++ p.1.2
    word1 := p.1.1
    word2 := p.1.2
    frequency := counterGet freq_table p.1
    pmi_score := p.2
    chi_square_score := ((scores_chi.find? (fun q => q.1 = p.1)).map
      (fun q => q.2)).getD 0 }

/-- Embeds `BigramAnalyzer.export_results(tokens, ...)`: `scores_pmi` and
`scores_chi` come from `calculate_bigram_scores` with measure `pmi` resp.
`chi_square` (both dispatch successfully, but either scoring pass may raise,
and its exception then propagates out of `export_results`); on success, one
record per entry of `scores_pmi[:100]`. -/
noncomputable def export_results (s : Analyzer) (tokens : List Token) :
    Except PyExn (List ExportRecord) × Analyzer :=
  match (calculate_bigram_scores s tokens "pmi").1,
      (calculate_bigram_scores s tokens "chi_square").1 with
  | Except.ok scores_pmi, Except.ok scores_chi =>
    (Except.ok ((scores_pmi.take 100).map
      (exportRecord s.bigram_freq scores_chi)), s)
  | Except.error e, _ => (Except.error e, s)
  | _, Except.error e => (Except.error e, s)

/-! ## Claims -/

/-- C1: for every token sequence, `extract_bigrams` returns exactly
`length - 1` bigrams, in order, the `i`-th being `(tokens[i], tokens[i+1])`;
an empty or single-token input yields the empty list; the function is total,
so no input errors. -/
theorem C1_extract_returns_adjacent_pairs (s : Analyzer) (tokens : List Token) :
    (extract_bigrams s tokens).1.length = tokens.length - 1
    ∧ (∀ i : ℕ, (extract_bigrams s tokens).1[i]? =
        match tokens[i]?, tokens[i + 1]? with
        | some a, some b => some (a, b)
        | _, _ => none)
    ∧ (extract_bigrams s []).1 = []
    ∧ (∀ t : Token, (extract_bigrams s [t]).1 = []) := by
  refine ⟨?_, ?_, rfl, fun t => rfl⟩
  · show (tokens.zip tokens.tail).length = tokens.length - 1
    rw [List.length_zip, List.length_tail]
    omega
  · intro i
    have hzip : ∀ (l1 l2 : List Token) (j : ℕ), (l1.zip l2)[j]? =
        match l1[j]?, l2[j]? with
        | some a, some b => some (a, b)
        | _, _ => none := by
      intro l1
      induction l1 with
      | nil => intro l2 j; simp
      | cons a t ih =>
        intro l2 j
        cases l2 with
        | nil => simp
        | cons b t2 =>
          cases j with
          | zero => simp
          | succ j2 => simpa using ih t2 j2
    have htail : ∀ (l : List Token) (j : ℕ), l.tail[j]? = l[j + 1]? := by
      intro l j; cases l <;> simp
    show (tokens.zip tokens.tail)[i]? = _
    rw [hzip, htail]

/-- C2: extraction is accumulative.  Extracting `A` then `B` on a fresh
analyzer leaves a frequency table equal, count by count, to the pointwise sum
of the tables obtained from `A` alone and from `B` alone; and in general an
extraction call adds its counts on top of whatever table the instance already
holds (the table is never reset). -/
theorem C2_extraction_accumulative (A B : List Token) (k : Bigram) :
    counterGet (extract_bigrams (extract_bigrams Analyzer.init A).2 B).2.bigram_freq k =
      counterGet (extract_bigrams Analyzer.init A).2.bigram_freq k +
      counterGet (extract_bigrams Analyzer.init B).2.bigram_freq k
    ∧ (∀ s : Analyzer,
        counterGet (extract_bigrams s B).2.bigram_freq k =
          counterGet s.bigram_freq k +
          counterGet (extract_bigrams Analyzer.init B).2.bigram_freq k) := by
  have step : ∀ (s : Analyzer) (ts : List Token),
      counterGet (extract_bigrams s ts).2.bigram_freq k =
        counterGet s.bigram_freq k + (bigramsOf ts).count k := by
    intro s ts
    simpa [extract_bigrams] using counterGet_counterUpdate s.bigram_freq (bigramsOf ts) k
  have base : ∀ ts : List Token,
      counterGet (extract_bigrams Analyzer.init ts).2.bigram_freq k = (bigramsOf ts).count k := by
    intro ts
    rw [step]
    simp [Analyzer.init, counterGet]
  constructor
  · rw [step, base, base]
  · intro s
    rw [step, base]

/-- C3: evaluation of `generate_bigram_statistics` on an empty token input.
The guarded fields (`total`, `unique`, `max`, `min`, `coverage`) are 0 as the
spec demands, but `avg_frequency` and `std_frequency` are `np.mean([])` /
`np.std([])`, i.e. NaN (`none`) — not the 0 the claim states. -/
theorem C3_statistics_empty_input :
    (generate_bigram_statistics Analyzer.init []).1 =
      { total_bigrams := 0, unique_bigrams := 0, avg_frequency := none,
        std_frequency := none, max_frequency := 0, min_frequency := 0,
        coverage := 0 } := by
  rfl

/-- C4 counterexample: with the SAME analyzer state (the fresh instance,
whose cumulative frequency table is empty), `calculate_bigram_scores`
returns scores for whatever bigrams occur in its `tokens` argument — here
two calls at the same (empty) cumulative table score two different bigram
sets, and the scored bigram `("a","b")` resp. `("c","d")` is not in the
table at all.  Hence scores are not recomputed from the cumulative
FrequencyTable; they come from the tokens argument alone. -/
theorem C4_counterexample :
    (calculate_bigram_scores Analyzer.init ["a", "b"] "pmi").1.map
        (fun l => l.map Prod.fst) = Except.ok [("a", "b")]
    ∧ (calculate_bigram_scores Analyzer.init ["c", "d"] "pmi").1.map
        (fun l => l.map Prod.fst) = Except.ok [("c", "d")]
    ∧ Analyzer.init.bigram_freq = []
    ∧ counterGet Analyzer.init.bigram_freq ("a", "b") = 0
    ∧ counterGet Analyzer.init.bigram_freq ("c", "d") = 0 :=
  ⟨rfl, rfl, rfl, rfl, rfl⟩

/-- C4 (amended): `find_collocations` and `calculate_bigram_scores` are pure
functions of their explicit arguments (tokens, measure, n, min_freq) and
ignore the cumulative analyzer state entirely; in particular calling either
twice with no extraction in between yields identical ordered results. -/
theorem C4_amended_state_independent (s1 s2 : Analyzer) (tokens : List Token)
    (measure : String) (n min_freq : ℕ) :
    (calculate_bigram_scores s1 tokens measure).1
      = (calculate_bigram_scores s2 tokens measure).1
    ∧ (find_collocations s1 tokens n min_freq).1
      = (find_collocations s2 tokens n min_freq).1
    ∧ (calculate_bigram_scores (calculate_bigram_scores s1 tokens measure).2
        tokens measure).1 = (calculate_bigram_scores s1 tokens measure).1
    ∧ (find_collocations (find_collocations s1 tokens n min_freq).2
        tokens n min_freq).1 = (find_collocations s1 tokens n min_freq).1 := by
  refine ⟨?_, rfl, ?_, rfl⟩
  · unfold calculate_bigram_scores
    split_ifs <;> rfl
  · unfold calculate_bigram_scores
    split_ifs <;> rfl

/-- C5 counterexample: `calculate_bigram_scores` with `measure = "raw_freq"`
does not succeed; it raises `ValueError("Unknown measure: raw_freq")`
(`raw_freq` is missing from its `measure_funcs` dict). -/
theorem C5_counterexample :
    (calculate_bigram_scores Analyzer.init ["a", "b"] "raw_freq").1 =
      Except.error (PyExn.valueError "Unknown measure: raw_freq") := by
  rfl

/-- C5 (amended): `find_collocations` computes an `nbest` list under all
five measures, `raw_freq` included, while the scoring entry point
`calculate_bigram_scores` dispatches only `pmi`, `chi_square`,
`likelihood_ratio` and `student_t` — called with `raw_freq` it raises the
unknown-measure `ValueError` instead of returning scores; for the four
supported names it runs the respective NLTK measure, whose own arithmetic
exceptions may propagate. -/
theorem C5_amended_measure_support (s : Analyzer) (tokens : List Token)
    (n min_freq : ℕ) :
    (calculate_bigram_scores s tokens "raw_freq").1 =
      Except.error (PyExn.valueError "Unknown measure: raw_freq")
    ∧ (calculate_bigram_scores s tokens "pmi").1 =
        toExcept (score_ngrams (Finder.from_words tokens) pmiScore)
    ∧ (calculate_bigram_scores s tokens "chi_square").1 =
        toExcept (score_ngrams (Finder.from_words tokens) chiSqScoreR)
    ∧ (calculate_bigram_scores s tokens "likelihood_ratio").1 =
        toExcept (score_ngrams (Finder.from_words tokens) likelihoodScore)
    ∧ (calculate_bigram_scores s tokens "student_t").1 =
        toExcept (score_ngrams (Finder.from_words tokens) studentTScore)
    ∧ (find_collocations s tokens n min_freq).1 =
        ((nbest ((Finder.from_words tokens).apply_freq_filter min_freq)
            pmiScore n).bind (fun p =>
          (nbest ((Finder.from_words tokens).apply_freq_filter min_freq)
              chiSqScore n).bind (fun c =>
            (nbest ((Finder.from_words tokens).apply_freq_filter min_freq)
                likelihoodScore n).bind (fun l =>
              (nbest ((Finder.from_words tokens).apply_freq_filter min_freq)
                  studentTScore n).bind (fun t =>
                (nbest ((Finder.from_words tokens).apply_freq_filter min_freq)
                    rawFreqScore n).map (fun r =>
                  { pmiBest := p, chiSquareBest := c, likelihoodBest := l,
                    studentTBest := t, rawFreqBest := r })))))) :=
  ⟨rfl, rfl, rfl, rfl, rfl, rfl⟩

theorem exceptError_toExcept {α : Type} (o : Option α) :
    exceptError (toExcept o) = none := by
  cases o <;> rfl

/-- C7 counterexample: a SUPPORTED measure does not always return normally.
For tokens `["a", "a"]` the single bigram `(a, a)` has `n_ii = 1`,
`n_ix = n_xi = 2 = n_xx`, so the `phi_sq` denominator is exactly zero and
`calculate_bigram_scores(["a", "a"], "chi_square")` raises
`ZeroDivisionError` — an error, though the name is in the supported set. -/
theorem C7_counterexample :
    chiSqDen 1 (2, 2) 2 = 0
    ∧ (calculate_bigram_scores Analyzer.init ["a", "a"] "chi_square").1 =
        Except.error PyExn.arithmeticError := by
  have hd : chiSqDen 1 (2, 2) 2 = 0 := by
    unfold chiSqDen
    norm_num
  have hc : chiSqScore 1 (2, 2) 2 = none := by
    rw [chiSqScore, if_pos hd]
  have hcR : chiSqScoreR 1 (2, 2) 2 = none := by
    rw [chiSqScoreR, hc]
    rfl
  have hfd : (Finder.from_words ["a", "a"]).ngram_fd.filter
      (fun e => 0 < e.2) = [((("a" : String), ("a" : String)), 1)] := by rfl
  have hcall : chiSqScoreR ((("a" : String), ("a" : String)), 1).2
      ((Finder.from_words ["a", "a"]).word_fd ((("a" : String), ("a" : String)), 1).1.1,
        (Finder.from_words ["a", "a"]).word_fd ((("a" : String), ("a" : String)), 1).1.2)
      (Finder.from_words ["a", "a"]).N = none := hcR
  have hse : scoreEntries (Finder.from_words ["a", "a"]) chiSqScoreR
      [((("a" : String), ("a" : String)), 1)] = none := by
    rw [scoreEntries, hcall]
  refine ⟨hd, ?_⟩
  show toExcept (score_ngrams (Finder.from_words ["a", "a"]) chiSqScoreR) =
    Except.error PyExn.arithmeticError
  rw [score_ngrams, hfd, hse]
  rfl

/-- C7 (amended): an unknown measure name fails immediately with the
invalid-argument `ValueError("Unknown measure: ...")` and is never silently
defaulted: that error occurs exactly when the name is outside the supported
set, and a supported name never produces it.  A supported name is NOT
guaranteed to return normally, though: the chosen measure computation may
itself raise an arithmetic error (see the counterexample). -/
theorem C7_amended_unknown_measure (s : Analyzer) (tokens : List Token)
    (measure : String) :
    exceptError (calculate_bigram_scores s tokens measure).1 =
      (if measure ∈ supportedMeasures then none
       else some ("Unknown measure: " ++ measure)) := by
  by_cases h1 : measure = "pmi"
  · simp [calculate_bigram_scores, supportedMeasures, h1, exceptError_toExcept]
  · by_cases h2 : measure = "chi_square"
    · simp [calculate_bigram_scores, supportedMeasures, h1, h2, exceptError_toExcept]
    · by_cases h3 : measure = "likelihood_ratio"
      · simp [calculate_bigram_scores, supportedMeasures, h1, h2, h3,
          exceptError_toExcept]
      · by_cases h4 : measure = "student_t"
        · simp [calculate_bigram_scores, supportedMeasures, h1, h2, h3, h4,
            exceptError_toExcept]
        · simp [calculate_bigram_scores, supportedMeasures, h1, h2, h3, h4,
            exceptError]

/-! ## Helper lemmas for the ranking claims -/

theorem keys_counterIncr (c : List (Bigram × ℕ)) (k : Bigram) :
    (counterIncr c k).map Prod.fst =
      if k ∈ c.map Prod.fst then c.map Prod.fst else c.map Prod.fst ++ [k] := by
  induction c with
  | nil => simp [counterIncr]
  | cons e rest ih =>
    by_cases he : e.1 = k
    · simp [counterIncr, he]
    · have hne : ¬ k = e.1 := fun h => he h.symm
      by_cases hm : k ∈ rest.map Prod.fst
      · simp [counterIncr, he, ih, hm, hne]
      · simp [counterIncr, he, ih, hm, hne]

theorem nodup_keys_counterIncr (c : List (Bigram × ℕ)) (k : Bigram)
    (h : (c.map Prod.fst).Nodup) : ((counterIncr c k).map Prod.fst).Nodup := by
  rw [keys_counterIncr]
  by_cases hm : k ∈ c.map Prod.fst
  · simpa [hm] using h
  · rw [if_neg hm, List.nodup_append]
    refine ⟨h, List.nodup_singleton _, ?_⟩
    intro a ha hb
    rw [List.mem_singleton] at hb
    exact hm (hb ▸ ha)

theorem nodup_keys_counterUpdate (c : List (Bigram × ℕ)) (ks : List Bigram)
    (h : (c.map Prod.fst).Nodup) : ((counterUpdate c ks).map Prod.fst).Nodup := by
  induction ks generalizing c with
  | nil => exact h
  | cons b rest ih => exact ih _ (nodup_keys_counterIncr c b h)

theorem counterGet_of_mem (c : List (Bigram × ℕ)) (h : (c.map Prod.fst).Nodup)
    (e : Bigram × ℕ) (he : e ∈ c) : counterGet c e.1 = e.2 := by
  induction c with
  | nil => cases he
  | cons f rest ih =>
    rw [List.map_cons, List.nodup_cons] at h
    rcases List.mem_cons.mp he with rfl | hmem
    · simp [counterGet]
    · have hne : ¬ f.1 = e.1 := by
        intro hh
        exact h.1 (hh ▸ List.mem_map_of_mem Prod.fst hmem)
      simp only [counterGet, if_neg hne]
      exact ih h.2 hmem

/-- Every entry of the ngram FreqDist built by `from_words` records the exact
occurrence count of its bigram in the token sequence. -/
theorem mem_fromWords_count (tokens : List Token) (e : Bigram × ℕ)
    (he : e ∈ (Finder.from_words tokens).ngram_fd) :
    e.2 = (bigramsOf tokens).count e.1 := by
  have h1 : ((counterUpdate [] (bigramsOf tokens)).map Prod.fst).Nodup :=
    nodup_keys_counterUpdate [] _ (by simp)
  have h2 := counterGet_of_mem _ h1 e he
  rw [counterGet_counterUpdate] at h2
  simpa [counterGet] using h2.symm

/-- Every bigram of a successful scoring pass comes from one of the input
entries. -/
theorem scoreEntries_mem {β : Type} (f : Finder) (fn : ℕ → ℕ × ℕ → ℕ → Option β)
    (el : List (Bigram × ℕ)) (l : List (Bigram × β))
    (h : scoreEntries f fn el = some l) :
    ∀ p ∈ l, ∃ e ∈ el, p.1 = e.1 := by
  induction el generalizing l with
  | nil =>
    rw [scoreEntries] at h
    obtain rfl : ([] : List (Bigram × β)) = l := Option.some.inj h
    intro p hp
    cases hp
  | cons e rest ih =>
    rw [scoreEntries] at h
    cases hv : fn e.2 (f.word_fd e.1.1, f.word_fd e.1.2) f.N with
    | none =>
      rw [hv] at h
      exact Option.noConfusion h
    | some v =>
      cases hr : scoreEntries f fn rest with
      | none =>
        rw [hv, hr] at h
        exact Option.noConfusion h
      | some l2 =>
        rw [hv, hr] at h
        obtain rfl : (e.1, v) :: l2 = l := Option.some.inj h
        intro p hp
        rcases List.mem_cons.mp hp with rfl | hp2
        · exact ⟨e, List.mem_cons_self _ _, rfl⟩
        · obtain ⟨e2, he2, hpe⟩ := ih l2 hr p hp2
          exact ⟨e2, List.mem_cons_of_mem _ he2, hpe⟩

/-- A successful `score_ngrams` result is the `(-score, ngram)`-sort of a
successful scoring pass over the surviving entries. -/
theorem score_ngrams_some {β : Type} [LinearOrder β] (f : Finder)
    (fn : ℕ → ℕ × ℕ → ℕ → Option β) (scored : List (Bigram × β))
    (h : score_ngrams f fn = some scored) :
    ∃ l, scoreEntries f fn (f.ngram_fd.filter (fun e => 0 < e.2)) = some l
      ∧ scored = List.insertionSort keyLe l := by
  rw [score_ngrams] at h
  cases he : scoreEntries f fn (f.ngram_fd.filter (fun e => 0 < e.2)) with
  | none =>
    rw [he] at h
    exact Option.noConfusion h
  | some l =>
    rw [he] at h
    exact ⟨l, rfl, (Option.some.inj h).symm⟩

theorem sorted_of_score_ngrams {β : Type} [LinearOrder β] (f : Finder)
    (fn : ℕ → ℕ × ℕ → ℕ → Option β) (scored : List (Bigram × β))
    (h : score_ngrams f fn = some scored) : List.Sorted keyLe scored := by
  obtain ⟨l, -, rfl⟩ := score_ngrams_some f fn scored h
  exact List.sorted_insertionSort _ _

/-- Specification of one ranking list of `find_collocations` under a given
measure, in the success case (no measure computation raised): the scored
list exists and is sorted descending by score with ascending lexicographic
tie-break (`keyLe`); the output is the bigram projection of its `n`-prefix,
has at most `n` entries, and contains only bigrams whose joint count in the
token sequence reaches `min_freq`. -/
def RankSpec {β : Type} [LinearOrder β] (tokens : List Token) (min_freq n : ℕ)
    (fn : ℕ → ℕ × ℕ → ℕ → Option β) (out : List Bigram) : Prop :=
  ∃ scored,
    score_ngrams ((Finder.from_words tokens).apply_freq_filter min_freq) fn
      = some scored
    ∧ List.Sorted keyLe scored
    ∧ out = (scored.take n).map (fun p => p.1)
    ∧ out.length ≤ n
    ∧ ∀ b ∈ out, min_freq ≤ (bigramsOf tokens).count b

theorem rankSpec_of_nbest {β : Type} [LinearOrder β] (tokens : List Token)
    (min_freq n : ℕ) (fn : ℕ → ℕ × ℕ → ℕ → Option β) (out : List Bigram)
    (h : nbest ((Finder.from_words tokens).apply_freq_filter min_freq) fn n
      = some out) :
    RankSpec tokens min_freq n fn out := by
  rw [nbest] at h
  cases hs : score_ngrams ((Finder.from_words tokens).apply_freq_filter min_freq) fn with
  | none =>
    rw [hs] at h
    exact Option.noConfusion h
  | some scored =>
    rw [hs] at h
    have hout : (scored.take n).map (fun p => p.1) = out := Option.some.inj h
    refine ⟨scored, hs, sorted_of_score_ngrams _ _ _ hs, hout.symm, ?_, ?_⟩
    · rw [← hout, List.length_map]
      exact List.length_take_le n _
    · intro b hb
      rw [← hout, List.mem_map] at hb
      obtain ⟨p, hp, rfl⟩ := hb
      have hp2 : p ∈ scored := List.mem_of_mem_take hp
      obtain ⟨l, hl, hsort⟩ := score_ngrams_some _ _ _ hs
      rw [hsort, List.mem_insertionSort] at hp2
      obtain ⟨e, he, hpe⟩ := scoreEntries_mem _ _ _ _ hl p hp2
      rw [hpe]
      have heb : e ∈ ((Finder.from_words tokens).ngram_fd.filter
          (fun e => min_freq ≤ e.2)).filter (fun e => 0 < e.2) := he
      have he1 := (List.mem_filter.mp heb).1
      have he2 : min_freq ≤ e.2 := by
        simpa using (List.mem_filter.mp he1).2
      have he3 := (List.mem_filter.mp he1).1
      have hcount := mem_fromWords_count tokens e he3
      exact hcount ▸ he2

/-- Computation rule: `nbest` on a finder whose surviving entries and
scoring pass are known. -/
theorem nbest_of_scoreEntries {β : Type} [LinearOrder β] (f : Finder)
    (fn : ℕ → ℕ × ℕ → ℕ → Option β) (n : ℕ) (el : List (Bigram × ℕ))
    (l : List (Bigram × β))
    (hfd : f.ngram_fd.filter (fun e => 0 < e.2) = el)
    (hl : scoreEntries f fn el = some l) :
    nbest f fn n =
      some (((List.insertionSort keyLe l).take n).map (fun p => p.1)) := by
  rw [nbest, score_ngrams, hfd, hl]
  rfl

/-- Computation rule: `nbest` over a single surviving entry whose score is
defined. -/
theorem nbest_singleton {β : Type} [LinearOrder β] (f : Finder)
    (fn : ℕ → ℕ × ℕ → ℕ → Option β) (n : ℕ) (b : Bigram) (c : ℕ) (v : β)
    (hfd : f.ngram_fd.filter (fun e => 0 < e.2) = [(b, c)])
    (hv : fn c (f.word_fd b.1, f.word_fd b.2) f.N = some v)
    (hn : 0 < n) :
    nbest f fn n = some [b] := by
  have hl : scoreEntries f fn [(b, c)] = some [(b, v)] := by
    rw [scoreEntries, scoreEntries]
    rw [show fn (b, c).2 (f.word_fd (b, c).1.1, f.word_fd (b, c).1.2) f.N
      = some v from hv]
  rw [nbest_of_scoreEntries f fn n [(b, c)] [(b, v)] hfd hl]
  cases n with
  | zero => exact absurd hn (lt_irrefl 0)
  | succ m => simp [List.insertionSort, List.orderedInsert_nil]

/-- The arms of a successful `find_collocations` call: when the method
returns a dict, each of the five `nbest` rankings succeeded and produced the
corresponding field. -/
theorem find_collocations_arms (s : Analyzer) (tokens : List Token)
    (n min_freq : ℕ) (r : CollocationResults)
    (h : (find_collocations s tokens n min_freq).1 = some r) :
    nbest ((Finder.from_words tokens).apply_freq_filter min_freq) pmiScore n
      = some r.pmiBest
    ∧ nbest ((Finder.from_words tokens).apply_freq_filter min_freq) chiSqScore n
      = some r.chiSquareBest
    ∧ nbest ((Finder.from_words tokens).apply_freq_filter min_freq)
        likelihoodScore n = some r.likelihoodBest
    ∧ nbest ((Finder.from_words tokens).apply_freq_filter min_freq)
        studentTScore n = some r.studentTBest
    ∧ nbest ((Finder.from_words tokens).apply_freq_filter min_freq)
        rawFreqScore n = some r.rawFreqBest := by
  simp only [find_collocations] at h
  cases h1 : nbest ((Finder.from_words tokens).apply_freq_filter min_freq)
      pmiScore n with
  | none => rw [h1] at h; exact Option.noConfusion h
  | some p =>
  rw [h1] at h
  cases h2 : nbest ((Finder.from_words tokens).apply_freq_filter min_freq)
      chiSqScore n with
  | none => rw [h2] at h; exact Option.noConfusion h
  | some c =>
  rw [h2] at h
  cases h3 : nbest ((Finder.from_words tokens).apply_freq_filter min_freq)
      likelihoodScore n with
  | none => rw [h3] at h; exact Option.noConfusion h
  | some l =>
  rw [h3] at h
  cases h4 : nbest ((Finder.from_words tokens).apply_freq_filter min_freq)
      studentTScore n with
  | none => rw [h4] at h; exact Option.noConfusion h
  | some t =>
  rw [h4] at h
  cases h5 : nbest ((Finder.from_words tokens).apply_freq_filter min_freq)
      rawFreqScore n with
  | none => rw [h5] at h; exact Option.noConfusion h
  | some rw5 =>
  rw [h5] at h
  obtain rfl : CollocationResults.mk p c l t rw5 = r := Option.some.inj h
  exact ⟨rfl, rfl, rfl, rfl, rfl⟩

/-- C6 (amended): when `find_collocations` returns (none of the five measure
computations raised an exception), each of the five lists consists of only
bigrams with joint count at least `min_freq`, sorted descending by the score
of that measure with ties broken by ascending lexicographic (Python tuple)
order on the bigram — not by first-encounter order — and has at most `n`
entries, fewer when fewer bigrams survive the filter and empty when none
does.  The method is however not total: on degenerate corpora a measure
computation raises and `find_collocations` raises with it instead of
returning (see the counterexample). -/
theorem C6_amended_ranking (s : Analyzer) (tokens : List Token)
    (n min_freq : ℕ) (r : CollocationResults)
    (h : (find_collocations s tokens n min_freq).1 = some r) :
    RankSpec tokens min_freq n pmiScore r.pmiBest
    ∧ RankSpec tokens min_freq n chiSqScore r.chiSquareBest
    ∧ RankSpec tokens min_freq n likelihoodScore r.likelihoodBest
    ∧ RankSpec tokens min_freq n studentTScore r.studentTBest
    ∧ RankSpec tokens min_freq n rawFreqScore r.rawFreqBest := by
  obtain ⟨h1, h2, h3, h4, h5⟩ := find_collocations_arms s tokens n min_freq r h
  exact ⟨rankSpec_of_nbest tokens min_freq n pmiScore r.pmiBest h1,
    rankSpec_of_nbest tokens min_freq n chiSqScore r.chiSquareBest h2,
    rankSpec_of_nbest tokens min_freq n likelihoodScore r.likelihoodBest h3,
    rankSpec_of_nbest tokens min_freq n studentTScore r.studentTBest h4,
    rankSpec_of_nbest tokens min_freq n rawFreqScore r.rawFreqBest h5⟩

/-- Concrete successful run: on tokens `["a", "b"]` every measure is defined
(`n_ii = n_ix = n_xi = 1`, `N = 2`) and `find_collocations` returns the
singleton ranking under all five measures. -/
theorem find_collocations_ab :
    (find_collocations Analyzer.init ["a", "b"] 20 1).1 =
      some { pmiBest := [("a", "b")], chiSquareBest := [("a", "b")],
             likelihoodBest := [("a", "b")], studentTBest := [("a", "b")],
             rawFreqBest := [("a", "b")] } := by
  have hfd : (((Finder.from_words ["a", "b"]).apply_freq_filter 1).ngram_fd.filter
      (fun e => 0 < e.2)) = [((("a" : String), ("b" : String)), 1)] := by rfl
  have hP : pmiScore 1 (1, 1) 2 = some (pmiVal 1 (1, 1) 2) := by
    rw [pmiScore, if_neg]
    norm_num
  have hC : chiSqScore 1 (1, 1) 2 = some (chiSqVal 1 (1, 1) 2) := by
    rw [chiSqScore, if_neg]
    unfold chiSqDen
    norm_num
  have hL : likelihoodScore 1 (1, 1) 2 = some (likelihoodVal 1 (1, 1) 2) := by
    have hdef : likelihoodDefined 1 (1, 1) 2 := by
      unfold likelihoodDefined lrCellSum lrData nltkSmall
      norm_num
    rw [likelihoodScore, if_pos hdef]
  have hT : studentTScore 1 (1, 1) 2 = some (studentTVal 1 (1, 1) 2) := by
    rw [studentTScore, if_neg]
    norm_num
  have hR : rawFreqScore 1 (1, 1) 2 = some (rawFreqVal 1 (1, 1) 2) := by
    rw [rawFreqScore, if_neg]
    norm_num
  have h1 : nbest ((Finder.from_words ["a", "b"]).apply_freq_filter 1)
      pmiScore 20 = some [("a", "b")] :=
    nbest_singleton _ pmiScore 20 ("a", "b") 1 _ hfd hP (by norm_num)
  have h2 : nbest ((Finder.from_words ["a", "b"]).apply_freq_filter 1)
      chiSqScore 20 = some [("a", "b")] :=
    nbest_singleton _ chiSqScore 20 ("a", "b") 1 _ hfd hC (by norm_num)
  have h3 : nbest ((Finder.from_words ["a", "b"]).apply_freq_filter 1)
      likelihoodScore 20 = some [("a", "b")] :=
    nbest_singleton _ likelihoodScore 20 ("a", "b") 1 _ hfd hL (by norm_num)
  have h4 : nbest ((Finder.from_words ["a", "b"]).apply_freq_filter 1)
      studentTScore 20 = some [("a", "b")] :=
    nbest_singleton _ studentTScore 20 ("a", "b") 1 _ hfd hT (by norm_num)
  have h5 : nbest ((Finder.from_words ["a", "b"]).apply_freq_filter 1)
      rawFreqScore 20 = some [("a", "b")] :=
    nbest_singleton _ rawFreqScore 20 ("a", "b") 1 _ hfd hR (by norm_num)
  simp only [find_collocations]
  rw [h1, h2, h3, h4, h5]
  rfl

/-- Witness for `C6_amended_ranking` at `tokens = ["a", "b"]`, `n = 20`,
`min_freq = 1`: the returned raw-frequency list contains only the bigram
`("a", "b")`, whose joint count indeed reaches the filter, and has at most
20 entries. -/
theorem C6_amended_ranking_witness :
    1 ≤ (bigramsOf ["a", "b"]).count ("a", "b")
    ∧ ({ pmiBest := [("a", "b")], chiSquareBest := [("a", "b")],
         likelihoodBest := [("a", "b")], studentTBest := [("a", "b")],
         rawFreqBest := [("a", "b")] } : CollocationResults).rawFreqBest.length
        ≤ 20 := by
  have h := C6_amended_ranking Analyzer.init ["a", "b"] 20 1 _ find_collocations_ab
  obtain ⟨scored, -, -, -, hlen, hmem⟩ := h.2.2.2.2
  exact ⟨hmem ("a", "b") (by decide), hlen⟩

/-- Helper: scoring pass over exactly three surviving entries, each of whose
scores is defined. -/
theorem scoreEntries_three {β : Type} (f : Finder) (fn : ℕ → ℕ × ℕ → ℕ → Option β)
    (b1 b2 b3 : Bigram) (c1 c2 c3 : ℕ) (v1 v2 v3 : β)
    (h1 : fn c1 (f.word_fd b1.1, f.word_fd b1.2) f.N = some v1)
    (h2 : fn c2 (f.word_fd b2.1, f.word_fd b2.2) f.N = some v2)
    (h3 : fn c3 (f.word_fd b3.1, f.word_fd b3.2) f.N = some v3) :
    scoreEntries f fn [(b1, c1), (b2, c2), (b3, c3)] =
      some [(b1, v1), (b2, v2), (b3, v3)] := by
  rw [scoreEntries, scoreEntries, scoreEntries, scoreEntries]
  rw [show fn (b1, c1).2 (f.word_fd (b1, c1).1.1, f.word_fd (b1, c1).1.2) f.N
      = some v1 from h1]
  rw [show fn (b2, c2).2 (f.word_fd (b2, c2).1.1, f.word_fd (b2, c2).1.2) f.N
      = some v2 from h2]
  rw [show fn (b3, c3).2 (f.word_fd (b3, c3).1.1, f.word_fd (b3, c3).1.2) f.N
      = some v3 from h3]

/-- C6 counterexample, refuting two parts of the claim.  Tie-break: the
tokens `["z", "y", "x", "w"]` yield the bigrams `(z,y), (y,x), (x,w)`, first
encountered in the table in that order, all with joint count 1 and identical
marginals, hence identical `raw_freq` scores `1/4` — an all-way tie.  The
claimed first-encounter (stable-sort) tie-break predicts the output order
`[(z,y), (y,x), (x,w)]`; the sort key `(-score, ngram)` of the code returns
the ascending lexicographic order `[(x,w), (y,x), (z,y)]`.  Never-errors:
for tokens `["a", "a", "a", "a"]` — even at the DEFAULT `min_freq = 3` — the
`chi_sq` arm divides by an exactly zero `phi_sq` denominator, so
`find_collocations` raises `ZeroDivisionError` instead of returning. -/
theorem C6_counterexample :
    (Finder.from_words ["z", "y", "x", "w"]).ngram_fd.map Prod.fst =
      [("z", "y"), ("y", "x"), ("x", "w")]
    ∧ (score_ngrams ((Finder.from_words ["z", "y", "x", "w"]).apply_freq_filter 1)
        rawFreqScore).map (List.map Prod.snd) = some [1/4, 1/4, 1/4]
    ∧ ((find_collocations Analyzer.init ["z", "y", "x", "w"] 20 1).1.map
        (fun r => r.rawFreqBest)) = some [("x", "w"), ("y", "x"), ("z", "y")]
    ∧ (find_collocations Analyzer.init ["a", "a", "a", "a"] 20 3).1 = none := by
  have hfdZ : (((Finder.from_words ["z", "y", "x", "w"]).apply_freq_filter 1).ngram_fd.filter (fun e => 0 < e.2)) =
      [((("z" : String), ("y" : String)), 1), ((("y" : String), ("x" : String)), 1), ((("x" : String), ("w" : String)), 1)] := by rfl
  have hP4 : pmiScore 1 (1, 1) 4 = some (pmiVal 1 (1, 1) 4) := by
    rw [pmiScore, if_neg]
    norm_num
  have hC4 : chiSqScore 1 (1, 1) 4 = some (chiSqVal 1 (1, 1) 4) := by
    rw [chiSqScore, if_neg]
    unfold chiSqDen
    norm_num
  have hL4 : likelihoodScore 1 (1, 1) 4 = some (likelihoodVal 1 (1, 1) 4) := by
    have hdef : likelihoodDefined 1 (1, 1) 4 := by
      unfold likelihoodDefined lrCellSum lrData nltkSmall
      norm_num
    rw [likelihoodScore, if_pos hdef]
  have hT4 : studentTScore 1 (1, 1) 4 = some (studentTVal 1 (1, 1) 4) := by
    rw [studentTScore, if_neg]
    norm_num
  have hR4 : rawFreqScore 1 (1, 1) 4 = some (rawFreqVal 1 (1, 1) 4) := by
    rw [rawFreqScore, if_neg]
    norm_num
  have hsP := scoreEntries_three ((Finder.from_words ["z", "y", "x", "w"]).apply_freq_filter 1) pmiScore
    (("z" : String), ("y" : String)) (("y" : String), ("x" : String)) (("x" : String), ("w" : String)) 1 1 1 _ _ _ hP4 hP4 hP4
  have hsC := scoreEntries_three ((Finder.from_words ["z", "y", "x", "w"]).apply_freq_filter 1) chiSqScore
    (("z" : String), ("y" : String)) (("y" : String), ("x" : String)) (("x" : String), ("w" : String)) 1 1 1 _ _ _ hC4 hC4 hC4
  have hsL := scoreEntries_three ((Finder.from_words ["z", "y", "x", "w"]).apply_freq_filter 1) likelihoodScore
    (("z" : String), ("y" : String)) (("y" : String), ("x" : String)) (("x" : String), ("w" : String)) 1 1 1 _ _ _ hL4 hL4 hL4
  have hsT := scoreEntries_three ((Finder.from_words ["z", "y", "x", "w"]).apply_freq_filter 1) studentTScore
    (("z" : String), ("y" : String)) (("y" : String), ("x" : String)) (("x" : String), ("w" : String)) 1 1 1 _ _ _ hT4 hT4 hT4
  have hsR := scoreEntries_three ((Finder.from_words ["z", "y", "x", "w"]).apply_freq_filter 1) rawFreqScore
    (("z" : String), ("y" : String)) (("y" : String), ("x" : String)) (("x" : String), ("w" : String)) 1 1 1 _ _ _ hR4 hR4 hR4
  have hnP := nbest_of_scoreEntries ((Finder.from_words ["z", "y", "x", "w"]).apply_freq_filter 1) pmiScore 20 _ _ hfdZ hsP
  have hnC := nbest_of_scoreEntries ((Finder.from_words ["z", "y", "x", "w"]).apply_freq_filter 1) chiSqScore 20 _ _ hfdZ hsC
  have hnL := nbest_of_scoreEntries ((Finder.from_words ["z", "y", "x", "w"]).apply_freq_filter 1) likelihoodScore 20 _ _ hfdZ hsL
  have hnT := nbest_of_scoreEntries ((Finder.from_words ["z", "y", "x", "w"]).apply_freq_filter 1) studentTScore 20 _ _ hfdZ hsT
  have hkey1 : ¬ keyLe ((("y" : String), ("x" : String)), rawFreqVal 1 (1, 1) 4)
      ((("x" : String), ("w" : String)), rawFreqVal 1 (1, 1) 4) := by
    rintro (h | ⟨-, h | ⟨h, -⟩⟩)
    · exact lt_irrefl _ h
    · rw [String.lt_iff_toList_lt] at h
      exact absurd h (by decide)
    · exact absurd h (by decide)
  have hkey2 : ¬ keyLe ((("z" : String), ("y" : String)), rawFreqVal 1 (1, 1) 4)
      ((("x" : String), ("w" : String)), rawFreqVal 1 (1, 1) 4) := by
    rintro (h | ⟨-, h | ⟨h, -⟩⟩)
    · exact lt_irrefl _ h
    · rw [String.lt_iff_toList_lt] at h
      exact absurd h (by decide)
    · exact absurd h (by decide)
  have hkey3 : ¬ keyLe ((("z" : String), ("y" : String)), rawFreqVal 1 (1, 1) 4)
      ((("y" : String), ("x" : String)), rawFreqVal 1 (1, 1) 4) := by
    rintro (h | ⟨-, h | ⟨h, -⟩⟩)
    · exact lt_irrefl _ h
    · rw [String.lt_iff_toList_lt] at h
      exact absurd h (by decide)
    · exact absurd h (by decide)
  have hsort : List.insertionSort keyLe
      [((("z" : String), ("y" : String)), rawFreqVal 1 (1, 1) 4), ((("y" : String), ("x" : String)), rawFreqVal 1 (1, 1) 4),
       ((("x" : String), ("w" : String)), rawFreqVal 1 (1, 1) 4)] =
      [((("x" : String), ("w" : String)), rawFreqVal 1 (1, 1) 4), ((("y" : String), ("x" : String)), rawFreqVal 1 (1, 1) 4),
       ((("z" : String), ("y" : String)), rawFreqVal 1 (1, 1) 4)] := by
    simp only [List.insertionSort, List.orderedInsert, List.orderedInsert_nil,
      if_neg hkey1, if_neg hkey2, if_neg hkey3]
  have hsnR : score_ngrams ((Finder.from_words ["z", "y", "x", "w"]).apply_freq_filter 1) rawFreqScore =
      some [((("x" : String), ("w" : String)), rawFreqVal 1 (1, 1) 4), ((("y" : String), ("x" : String)), rawFreqVal 1 (1, 1) 4),
        ((("z" : String), ("y" : String)), rawFreqVal 1 (1, 1) 4)] := by
    rw [score_ngrams, hfdZ, hsR]
    show some (List.insertionSort keyLe
      [((("z" : String), ("y" : String)), rawFreqVal 1 (1, 1) 4), ((("y" : String), ("x" : String)), rawFreqVal 1 (1, 1) 4),
       ((("x" : String), ("w" : String)), rawFreqVal 1 (1, 1) 4)]) = _
    rw [hsort]
  have hnR : nbest ((Finder.from_words ["z", "y", "x", "w"]).apply_freq_filter 1) rawFreqScore 20 =
      some [("x", "w"), ("y", "x"), ("z", "y")] := by
    rw [nbest, hsnR]
    rfl
  -- the error input
  have hfdA : (((Finder.from_words ["a", "a", "a", "a"]).apply_freq_filter 3).ngram_fd.filter (fun e => 0 < e.2)) = [((("a" : String), ("a" : String)), 3)] := by rfl
  have hPA : pmiScore 3 (4, 4) 4 = some (pmiVal 3 (4, 4) 4) := by
    rw [pmiScore, if_neg]
    norm_num
  have hnPA : nbest ((Finder.from_words ["a", "a", "a", "a"]).apply_freq_filter 3) pmiScore 20 = some [("a", "a")] :=
    nbest_singleton _ pmiScore 20 ("a", "a") 3 _ hfdA hPA (by norm_num)
  have hCA : chiSqScore 3 (4, 4) 4 = none := by
    have hden : chiSqDen 3 (4, 4) 4 = 0 := by
      unfold chiSqDen
      norm_num
    rw [chiSqScore, if_pos hden]
  have hlCA : scoreEntries ((Finder.from_words ["a", "a", "a", "a"]).apply_freq_filter 3) chiSqScore [((("a" : String), ("a" : String)), 3)] = none := by
    rw [scoreEntries]
    rw [show chiSqScore ((("a" : String), ("a" : String)), 3).2
        (((Finder.from_words ["a", "a", "a", "a"]).apply_freq_filter 3).word_fd ((("a" : String), ("a" : String)), 3).1.1, ((Finder.from_words ["a", "a", "a", "a"]).apply_freq_filter 3).word_fd ((("a" : String), ("a" : String)), 3).1.2)
        ((Finder.from_words ["a", "a", "a", "a"]).apply_freq_filter 3).N = none from hCA]
  have hnCA : nbest ((Finder.from_words ["a", "a", "a", "a"]).apply_freq_filter 3) chiSqScore 20 = none := by
    rw [nbest, score_ngrams, hfdA, hlCA]
    rfl
  refine ⟨rfl, ?_, ?_, ?_⟩
  · rw [hsnR]
    have hraw : rawFreqVal 1 (1, 1) 4 = 1/4 := by
      unfold rawFreqVal
      norm_num
    show some (List.map Prod.snd
      [((("x" : String), ("w" : String)), rawFreqVal 1 (1, 1) 4), ((("y" : String), ("x" : String)), rawFreqVal 1 (1, 1) 4),
       ((("z" : String), ("y" : String)), rawFreqVal 1 (1, 1) 4)]) = _
    rw [List.map_cons, List.map_cons, List.map_cons, List.map_nil, hraw]
  · simp only [find_collocations]
    rw [hnP, hnC, hnL, hnT, hnR]
    rfl
  · simp only [find_collocations]
    rw [hnPA, hnCA]
    rfl

theorem foldl_contextStep (pat : String) (l : List (ℕ × String)) (ctx : ContextRecord) :
    l.foldl (contextStep pat) ctx =
      { occurrences := ctx.occurrences +
          (l.filter (fun p => containsCI p.2 pat)).length
        sentences := ctx.sentences ++
          (l.filter (fun p => containsCI p.2 pat)).map Prod.snd
        positions := ctx.positions ++
          (l.filter (fun p => containsCI p.2 pat)).map Prod.fst } := by
  induction l generalizing ctx with
  | nil => simp
  | cons p rest ih =>
    rw [List.foldl_cons, ih]
    by_cases h : containsCI p.2 pat
    · simp [contextStep, h, List.filter_cons, Nat.add_assoc, Nat.add_comm]
    · simp [contextStep, h, List.filter_cons]

/-- C8: `analyze_bigram_context` tests each sentence in original 0-indexed
order with a case-insensitive substring test for the phrase
`word1 + " " + word2`; each matching sentence contributes exactly one
occurrence (even if the phrase occurs in it twice), its original-case text
and its index; with no match the filter is empty, so the result is zero
occurrences with empty sentence and position lists, and the function is
total (no error). -/
theorem C8_context_locator (s : Analyzer) (sentences : List String) (target : Bigram) :
    (analyze_bigram_context s sentences target).1 =
      { occurrences := (sentences.enum.filter
          (fun p => containsCI p.2 (target.1 ++ " " ++ target.2))).length
        sentences := (sentences.enum.filter
          (fun p => containsCI p.2 (target.1 ++ " " ++ target.2))).map Prod.snd
        positions := (sentences.enum.filter
          (fun p => containsCI p.2 (target.1 ++ " " ++ target.2))).map Prod.fst } := by
  show sentences.enum.foldl (contextStep (target.1 ++ " " ++ target.2))
    { occurrences := 0, sentences := [], positions := [] } = _
  rw [foldl_contextStep]
  simp

/-- Helper for the concrete export computations: the scoring pass, the
`score_ngrams` result and the dispatched `calculate_bigram_scores` result on
the single surviving bigram `("a", "b")` of tokens `["a", "b"]` under the
PMI measure. -/
theorem calc_pmi_ab :
    (calculate_bigram_scores Analyzer.init ["a", "b"] "pmi").1 =
      Except.ok [((("a" : String), ("b" : String)), pmiVal 1 (1, 1) 2)] := by
  have hfd : (Finder.from_words ["a", "b"]).ngram_fd.filter
      (fun e => 0 < e.2) = [((("a" : String), ("b" : String)), 1)] := by rfl
  have hP : pmiScore 1 (1, 1) 2 = some (pmiVal 1 (1, 1) 2) := by
    rw [pmiScore, if_neg]
    norm_num
  have hl : scoreEntries (Finder.from_words ["a", "b"]) pmiScore
      [((("a" : String), ("b" : String)), 1)] =
      some [((("a" : String), ("b" : String)), pmiVal 1 (1, 1) 2)] := by
    rw [scoreEntries, scoreEntries]
    rw [show pmiScore ((("a" : String), ("b" : String)), 1).2
        ((Finder.from_words ["a", "b"]).word_fd ((("a" : String), ("b" : String)), 1).1.1,
         (Finder.from_words ["a", "b"]).word_fd ((("a" : String), ("b" : String)), 1).1.2)
        (Finder.from_words ["a", "b"]).N = some (pmiVal 1 (1, 1) 2) from hP]
  show toExcept (score_ngrams (Finder.from_words ["a", "b"]) pmiScore) = _
  rw [score_ngrams, hfd, hl]
  rfl

/-- Helper: the chi-square pass on tokens `["a", "b"]` also succeeds. -/
theorem calc_chi_ab :
    (calculate_bigram_scores Analyzer.init ["a", "b"] "chi_square").1 =
      Except.ok [((("a" : String), ("b" : String)),
        ((chiSqVal 1 (1, 1) 2 : ℚ) : ℝ))] := by
  have hfd : (Finder.from_words ["a", "b"]).ngram_fd.filter
      (fun e => 0 < e.2) = [((("a" : String), ("b" : String)), 1)] := by rfl
  have hC : chiSqScoreR 1 (1, 1) 2 = some ((chiSqVal 1 (1, 1) 2 : ℚ) : ℝ) := by
    have hden : ¬ chiSqDen 1 (1, 1) 2 = 0 := by
      unfold chiSqDen
      norm_num
    rw [chiSqScoreR, chiSqScore, if_neg hden]
    rfl
  have hl : scoreEntries (Finder.from_words ["a", "b"]) chiSqScoreR
      [((("a" : String), ("b" : String)), 1)] =
      some [((("a" : String), ("b" : String)), ((chiSqVal 1 (1, 1) 2 : ℚ) : ℝ))] := by
    rw [scoreEntries, scoreEntries]
    rw [show chiSqScoreR ((("a" : String), ("b" : String)), 1).2
        ((Finder.from_words ["a", "b"]).word_fd ((("a" : String), ("b" : String)), 1).1.1,
         (Finder.from_words ["a", "b"]).word_fd ((("a" : String), ("b" : String)), 1).1.2)
        (Finder.from_words ["a", "b"]).N
        = some ((chiSqVal 1 (1, 1) 2 : ℚ) : ℝ) from hC]
  show toExcept (score_ngrams (Finder.from_words ["a", "b"]) chiSqScoreR) = _
  rw [score_ngrams, hfd, hl]
  rfl

/-- C9 counterexample: the exporter does not always produce records.  For
tokens `["a", "a"]` the PMI scoring pass succeeds, but the chi-square pass
divides by an exactly zero `phi_sq` denominator
(`n_ii = 1`, `n_ix = n_xi = n_xx = 2`), so
`calculate_bigram_scores(tokens, chi_square)` raises `ZeroDivisionError`
inside `export_results`, which therefore raises too and produces nothing. -/
theorem C9_counterexample :
    (export_results Analyzer.init ["a", "a"]).1 =
      Except.error PyExn.arithmeticError := by
  have hfd : (Finder.from_words ["a", "a"]).ngram_fd.filter
      (fun e => 0 < e.2) = [((("a" : String), ("a" : String)), 1)] := by rfl
  have hP : pmiScore 1 (2, 2) 2 = some (pmiVal 1 (2, 2) 2) := by
    rw [pmiScore, if_neg]
    norm_num
  have hlP : scoreEntries (Finder.from_words ["a", "a"]) pmiScore
      [((("a" : String), ("a" : String)), 1)] =
      some [((("a" : String), ("a" : String)), pmiVal 1 (2, 2) 2)] := by
    rw [scoreEntries, scoreEntries]
    rw [show pmiScore ((("a" : String), ("a" : String)), 1).2
        ((Finder.from_words ["a", "a"]).word_fd ((("a" : String), ("a" : String)), 1).1.1,
         (Finder.from_words ["a", "a"]).word_fd ((("a" : String), ("a" : String)), 1).1.2)
        (Finder.from_words ["a", "a"]).N = some (pmiVal 1 (2, 2) 2) from hP]
  have hcalcP : (calculate_bigram_scores Analyzer.init ["a", "a"] "pmi").1 =
      Except.ok [((("a" : String), ("a" : String)), pmiVal 1 (2, 2) 2)] := by
    show toExcept (score_ngrams (Finder.from_words ["a", "a"]) pmiScore) = _
    rw [score_ngrams, hfd, hlP]
    rfl
  have hCR : chiSqScoreR 1 (2, 2) 2 = none := by
    have hden : chiSqDen 1 (2, 2) 2 = 0 := by
      unfold chiSqDen
      norm_num
    rw [chiSqScoreR, chiSqScore, if_pos hden]
    rfl
  have hlC : scoreEntries (Finder.from_words ["a", "a"]) chiSqScoreR
      [((("a" : String), ("a" : String)), 1)] = none := by
    rw [scoreEntries]
    rw [show chiSqScoreR ((("a" : String), ("a" : String)), 1).2
        ((Finder.from_words ["a", "a"]).word_fd ((("a" : String), ("a" : String)), 1).1.1,
         (Finder.from_words ["a", "a"]).word_fd ((("a" : String), ("a" : String)), 1).1.2)
        (Finder.from_words ["a", "a"]).N = none from hCR]
  have hcalcC : (calculate_bigram_scores Analyzer.init ["a", "a"] "chi_square").1 =
      Except.error PyExn.arithmeticError := by
    show toExcept (score_ngrams (Finder.from_words ["a", "a"]) chiSqScoreR) = _
    rw [score_ngrams, hfd, hlC]
    rfl
  simp only [export_results]
  rw [hcalcP, hcalcC]

/-- C9 (amended): when both scoring passes succeed (no measure computation
raised), `export_results` returns the ordered record list built from the
first 100 entries of the PMI ranking of the unfiltered finder — at most 100
records, in PMI-descending order with lexicographic tie-break — each record
carrying the chi-square score of the bigram looked up in the chi-square
ranking (0 when absent) and its raw frequency read from the cumulative
analyzer frequency table.  When a scoring pass raises, the exception
propagates out of `export_results` instead (see the counterexample). -/
theorem C9_amended_export (s : Analyzer) (tokens : List Token)
    (records : List ExportRecord)
    (h : (export_results s tokens).1 = Except.ok records) :
    ∃ scored chiScored,
      score_ngrams (Finder.from_words tokens) pmiScore = some scored
      ∧ score_ngrams (Finder.from_words tokens) chiSqScoreR = some chiScored
      ∧ List.Sorted keyLe scored
      ∧ records = (scored.take 100).map (exportRecord s.bigram_freq chiScored)
      ∧ records.length ≤ 100
      ∧ (records.map (fun r => r.pmi_score)).Pairwise (fun a b => b ≤ a) := by
  simp only [export_results] at h
  cases hp : (calculate_bigram_scores s tokens "pmi").1 with
  | error e =>
    cases hc : (calculate_bigram_scores s tokens "chi_square").1 with
    | error e2 => rw [hp, hc] at h; simp at h
    | ok sc => rw [hp, hc] at h; simp at h
  | ok sp =>
  cases hc : (calculate_bigram_scores s tokens "chi_square").1 with
  | error e2 => rw [hp, hc] at h; simp at h
  | ok sc =>
  rw [hp, hc] at h
  have hrec : (sp.take 100).map (exportRecord s.bigram_freq sc) = records :=
    Except.ok.inj h
  have hp2 : toExcept (score_ngrams (Finder.from_words tokens) pmiScore)
      = Except.ok sp := hp
  have hc2 : toExcept (score_ngrams (Finder.from_words tokens) chiSqScoreR)
      = Except.ok sc := hc
  cases hps : score_ngrams (Finder.from_words tokens) pmiScore with
  | none => rw [hps] at hp2; exact Except.noConfusion hp2
  | some scored =>
  rw [hps] at hp2
  cases hcs : score_ngrams (Finder.from_words tokens) chiSqScoreR with
  | none => rw [hcs] at hc2; exact Except.noConfusion hc2
  | some chiScored =>
  rw [hcs] at hc2
  have hsp : scored = sp := Except.ok.inj hp2
  have hsc : chiScored = sc := Except.ok.inj hc2
  rw [hsp] at hps
  rw [hsc] at hcs
  have hsorted : List.Sorted keyLe sp := sorted_of_score_ngrams _ _ _ hps
  refine ⟨sp, sc, congrArg some hsp, congrArg some hsc, hsorted, hrec.symm, ?_, ?_⟩
  · rw [← hrec, List.length_map]
    exact List.length_take_le 100 _
  · have ht : List.Pairwise keyLe (sp.take 100) :=
      hsorted.sublist (List.take_sublist _ _)
    have hmid : List.Pairwise
        (fun r1 r2 : ExportRecord => r2.pmi_score ≤ r1.pmi_score)
        records := by
      rw [← hrec]
      refine List.Pairwise.map _ ?_ ht
      intro a b hab
      rcases hab with h2 | ⟨h2, -⟩
      · exact le_of_lt h2
      · exact le_of_eq h2.symm
    refine List.Pairwise.map _ ?_ hmid
    intro a b hab
    exact hab

/-- Witness for `C9_amended_export` at `tokens = ["a", "b"]`: both scoring
passes are defined, the export succeeds, and it yields exactly one
record. -/
theorem C9_amended_export_witness :
    (export_results Analyzer.init ["a", "b"]).1.map List.length =
      Except.ok 1 := by
  have hok : (export_results Analyzer.init ["a", "b"]).1 =
      Except.ok (([((("a" : String), ("b" : String)),
          pmiVal 1 (1, 1) 2)].take 100).map
        (exportRecord Analyzer.init.bigram_freq
          [((("a" : String), ("b" : String)), ((chiSqVal 1 (1, 1) 2 : ℚ) : ℝ))])) := by
    simp only [export_results]
    rw [calc_pmi_ab, calc_chi_ab]
  obtain ⟨scored, chiScored, -, -, -, hrec, hlen, -⟩ :=
    C9_amended_export Analyzer.init ["a", "b"] _ hok
  rw [hok]
  rfl

/-- C10: only `extract_bigrams` mutates the analyzer state; the five read
operations return the state unchanged for every input. -/
theorem C10_only_extract_mutates (s : Analyzer) (tokens : List Token)
    (sentences : List String) (target : Bigram) (measure : String)
    (n min_freq : ℕ) :
    (find_collocations s tokens n min_freq).2 = s
    ∧ (calculate_bigram_scores s tokens measure).2 = s
    ∧ (analyze_bigram_context s sentences target).2 = s
    ∧ (generate_bigram_statistics s tokens).2 = s
    ∧ (get_top_bigrams s n).2 = s := by
  refine ⟨rfl, ?_, rfl, rfl, rfl⟩
  unfold calculate_bigram_scores
  split_ifs <;> rfl
